import Mathlib

/-!
# Verification of the jaws live-session synchronization engine

Shallow embedding of the jaws repository's wire codec (`wsmsg.go`), the
per-connection event loop and handler dispatcher (`Request.process`,
`Request.eventCaller`), the element registry (`RegisterEventFn`,
`GetEventFn`, `newElementLocked`) and the typed input wrappers
(`maybeInputFloat` / `maybeInputBool` / `maybeInputDate`), together with
proofs of the round-trip, discard, overload and error-handling properties
claimed by the specification.

Go strings are modelled as `List Char` (sequences of Unicode scalar
values) for the byte-level codec, and as Lean `String` for identifier
maps.  Fallible Go functions returning `(value, ok)` or `(value, err)`
are modelled with `Option`/`Except`.
-/

namespace Jaws

/-! ## The `what` package (command enumeration)

Modelled from the spec: the `what` package (referenced from `wsmsg.go` as
`github.com/linkdata/jaws/what`) is not among the provided sources.  The
spec fixes the command enumeration: `Input`, `Click`, `Trigger`, `Value`,
`Inner`, `SetAttr`, `RemoveAttr`, `Alert`, `Redirect`, `Reload`, `Ping`;
`what.Parse` yields an invalid value for unrecognized tokens and
`What.IsValid` reports validity. -/

inductive What where
  | invalid
  | Input
  | Click
  | Trigger
  | Value
  | Inner
  | SetAttr
  | RemoveAttr
  | Alert
  | Redirect
  | Reload
  | Ping
deriving DecidableEq, Repr

/-- Modelled from the spec: `What.String` returns the wire token of a command
(the empty token for the invalid command). -/
def What.str : What → List Char
  | .invalid => []
  | .Input => "Input".toList
  | .Click => "Click".toList
  | .Trigger => "Trigger".toList
  | .Value => "Value".toList
  | .Inner => "Inner".toList
  | .SetAttr => "SetAttr".toList
  | .RemoveAttr => "RemoveAttr".toList
  | .Alert => "Alert".toList
  | .Redirect => "Redirect".toList
  | .Reload => "Reload".toList
  | .Ping => "Ping".toList

/-- Modelled from the spec: `what.Parse` maps a token to its command and
unrecognized tokens to the invalid command. -/
def whatParse (s : List Char) : What :=
  if s = "Input".toList then .Input
  else if s = "Click".toList then .Click
  else if s = "Trigger".toList then .Trigger
  else if s = "Value".toList then .Value
  else if s = "Inner".toList then .Inner
  else if s = "SetAttr".toList then .SetAttr
  else if s = "RemoveAttr".toList then .RemoveAttr
  else if s = "Alert".toList then .Alert
  else if s = "Redirect".toList then .Redirect
  else if s = "Reload".toList then .Reload
  else if s = "Ping".toList then .Ping
  else .invalid

/-- `What.IsValid` from the `what` package: every command other than the
invalid one is valid. -/
def What.IsValid : What → Bool
  | .invalid => false
  | _ => true

/-! ## Jid wire encoding

Modelled from the spec: the `Jid` type and its `Append` / `JidParseString`
codec are not among the provided sources.  The spec says the jid is
"encoded in a compact fixed-radix text form (not decimal)"; we model it
as base-32 text using digits `0-9a-v` (the digit set of Go's
`strconv.AppendInt(b, v, 32)`), with the empty field decoding to jid 0
and a malformed field decoding to -1. -/

/-- Base-32 digit character: `0-9` then `a-v`. -/
def digitChar32 (d : Nat) : Char :=
  if d < 10 then Char.ofNat (48 + d) else Char.ofNat (87 + d)

/-- Append the base-32 digits of `n` (most significant first) before `rest`.
Structural recursion on a fuel argument so the definition reduces in the
kernel; any `fuel ≥ n` yields the digits of `n`. -/
def jidEncodeAux : Nat → Nat → List Char → List Char
  | 0, _, rest => rest
  | fuel + 1, n, rest =>
    if n = 0 then rest
    else jidEncodeAux fuel (n / 32) (digitChar32 (n % 32) :: rest)

/-- `Jid.Append`: the compact base-32 text of a positive jid. -/
def jidEncode (n : Nat) : List Char := jidEncodeAux n n []

/-- Value of a base-32 digit character, or `none` if not a digit. -/
def digitVal32 (c : Char) : Option Nat :=
  if 48 ≤ c.toNat ∧ c.toNat ≤ 57 then some (c.toNat - 48)
  else if 97 ≤ c.toNat ∧ c.toNat ≤ 118 then some (c.toNat - 87)
  else none

/-- Fold base-32 digits into a value; fails on the first non-digit. -/
def jidParseAux : List Char → Nat → Option Nat
  | [], acc => some acc
  | c :: cs, acc =>
    match digitVal32 c with
    | some d => jidParseAux cs (acc * 32 + d)
    | none => none

/-- `JidParseString`: the empty field is jid 0, a well-formed base-32 field
is its value, anything else is -1. -/
def jidParseChars (s : List Char) : Int :=
  match jidParseAux s 0 with
  | some v => Int.ofNat v
  | none => -1

/-! ## Go `strconv` quoting (payload codec)

Embedding of `strconv.AppendQuote` / `strconv.Unquote` as used by
`wsMsg.Append` and `wsParse`.  One simplification: the Unicode
printability tables behind Go's `strconv.IsPrint` are elided — every
scalar value `≥ 0x20` other than DEL is emitted raw, while Go would
additionally `\u`-escape certain non-printable runes.  Both spellings
denote the same decoded string, and neither contains a raw tab, newline
or quote, which is all the wire framing depends on. -/

/-- Lower-case hex digit character for `d < 16`. -/
def hexChar (d : Nat) : Char :=
  if d < 10 then Char.ofNat (48 + d) else Char.ofNat (87 + d)

/-- Value of a lower-case hex digit character. -/
def hexVal (c : Char) : Option Nat :=
  if 48 ≤ c.toNat ∧ c.toNat ≤ 57 then some (c.toNat - 48)
  else if 97 ≤ c.toNat ∧ c.toNat ≤ 102 then some (c.toNat - 87)
  else none

/-- Quoted expansion of one character, following Go `strconv` escaping:
backslash-escapes for quote and backslash, named escapes for the ASCII
control characters that have them, `\xHH` for the remaining control
characters and DEL, everything else raw. -/
def quoteChar (c : Char) : List Char :=
  if c = '"' then ['\\', '"']
  else if c = '\\' then ['\\', '\\']
  else if c = '\n' then ['\\', 'n']
  else if c = '\t' then ['\\', 't']
  else if c = '\r' then ['\\', 'r']
  else if c.toNat = 7 then ['\\', 'a']
  else if c.toNat = 8 then ['\\', 'b']
  else if c.toNat = 11 then ['\\', 'v']
  else if c.toNat = 12 then ['\\', 'f']
  else if c.toNat < 32 ∨ c.toNat = 127 then
    ['\\', 'x', hexChar (c.toNat / 16), hexChar (c.toNat % 16)]
  else [c]

/-- `strconv.AppendQuote`: a double-quoted, escaped form of the string. -/
def goQuote (s : List Char) : List Char :=
  '"' :: s.flatMap quoteChar ++ ['"']

/-- Body of `strconv.Unquote` after the opening quote: consumes characters
and escapes until the closing quote, which must end the input.  Raw
newlines and stray backslashes are rejected, as in Go. -/
def goUnquoteAux : List Char → Option (List Char)
  | [] => none
  | c :: rest =>
    if c = '"' then
      if rest = [] then some [] else none
    else if c = '\n' then none
    else if c = '\\' then
      match rest with
      | [] => none
      | e :: rest' =>
        if e = '"' then (goUnquoteAux rest').map (fun l => '"' :: l)
        else if e = '\\' then (goUnquoteAux rest').map (fun l => '\\' :: l)
        else if e = 'n' then (goUnquoteAux rest').map (fun l => '\n' :: l)
        else if e = 't' then (goUnquoteAux rest').map (fun l => '\t' :: l)
        else if e = 'r' then (goUnquoteAux rest').map (fun l => '\r' :: l)
        else if e = 'a' then (goUnquoteAux rest').map (fun l => Char.ofNat 7 :: l)
        else if e = 'b' then (goUnquoteAux rest').map (fun l => Char.ofNat 8 :: l)
        else if e = 'v' then (goUnquoteAux rest').map (fun l => Char.ofNat 11 :: l)
        else if e = 'f' then (goUnquoteAux rest').map (fun l => Char.ofNat 12 :: l)
        else if e = 'x' then
          match rest' with
          | h1 :: h2 :: rest'' =>
            match hexVal h1, hexVal h2 with
            | some a, some b =>
              (goUnquoteAux rest'').map (fun l => Char.ofNat (a * 16 + b) :: l)
            | _, _ => none
          | _ => none
        else none
    else (goUnquoteAux rest).map (fun l => c :: l)

/-- `strconv.Unquote`: requires a leading double quote, then `goUnquoteAux`. -/
def goUnquote (s : List Char) : Option (List Char) :=
  match s with
  | '"' :: rest => goUnquoteAux rest
  | _ => none

/-! ## The wire message (`wsmsg.go`) -/

/-- `wsMsg` from `wsmsg.go`: payload, jid (negative meaning "do not send"),
and command. -/
structure wsMsg where
  Data : List Char
  Jid : Int
  What : What
deriving DecidableEq, Repr

/-- `wsMsg.IsValid` from `wsmsg.go`. -/
def wsMsg.IsValid (m : wsMsg) : Bool := m.What.IsValid

/-- `wsMsg.Append` from `wsmsg.go`: `command TAB [jid] TAB [quoted-data] NL`,
where the jid field (and its tab) is omitted entirely for a negative jid,
the jid digits are omitted (empty field) for jid 0, and the payload is
omitted (no quotes) when empty. -/
def wsMsg.Append (m : wsMsg) : List Char :=
  m.What.str ++ '\t' ::
    ((if 0 ≤ m.Jid then (if 0 < m.Jid then jidEncode m.Jid.toNat else []) ++ ['\t'] else []) ++
      ((if m.Data = [] then [] else goQuote m.Data) ++ ['\n']))

/-- Split a list at its first tab: `some (before, after)`, or `none` when no
tab occurs (models `bytes.IndexByte(txt, '\t')`). -/
def splitTab : List Char → Option (List Char × List Char)
  | [] => none
  | c :: rest =>
    if c = '\t' then some ([], rest)
    else (splitTab rest).map (fun p => (c :: p.1, p.2))

/-- `wsParse` from `wsmsg.go`.  The Go function checks for a trailing
newline, locates the two tab separators, validates the command token and
unquotes the payload when it starts with a double quote, returning
`(wsMsg{}, false)` on any failure; `none` models the `false` case.
`bytes.ToValidUTF8` is the identity on this model's strings (sequences of
Unicode scalar values).  Go scans for tabs in the full buffer and slices
the payload as `txt[nl2+1 : len(txt)-1]`; since the trailing byte is the
newline (never a tab), splitting the newline off first, as done here, finds
the same separators and the same payload. -/
def wsParse (txt : List Char) : Option wsMsg :=
  if txt.getLast? = some '\n' then
    match splitTab txt.dropLast with
    | some (cmd, rest1) =>
      match splitTab rest1 with
      | some (jidStr, dataRaw) =>
        let wht := whatParse cmd
        if wht.IsValid then
          match dataRaw with
          | '"' :: _ =>
            match goUnquote dataRaw with
            | some d => some ⟨d, jidParseChars jidStr, wht⟩
            | none => none
          | _ => some ⟨dataRaw, jidParseChars jidStr, wht⟩
        else none
      | none => none
    | none => none
  else none

/-! ## Codec lemmas -/

/-- Each command's token parses back to itself (the invalid command's empty
token parses to invalid). -/
theorem whatParse_str (w : What) : whatParse w.str = w := by
  cases w <;> decide

/-- No command token contains a tab. -/
theorem tab_not_mem_str (w : What) : '\t' ∉ w.str := by
  cases w <;> decide

/-- Splitting at an explicit tab separator. -/
theorem splitTab_append (xs ys : List Char) (h : '\t' ∉ xs) :
    splitTab (xs ++ '\t' :: ys) = some (xs, ys) := by
  induction xs with
  | nil => simp [splitTab]
  | cons c rest ih =>
    have hc : c ≠ '\t' := fun hc => h (hc ▸ List.mem_cons_self c rest)
    have hrest : '\t' ∉ rest := fun hm => h (List.mem_cons_of_mem c hm)
    simp [splitTab, hc, ih hrest]

/-- A successful split decomposes the input at its first tab. -/
theorem splitTab_eq_some (l : List Char) (p : List Char × List Char)
    (h : splitTab l = some p) : l = p.1 ++ '\t' :: p.2 ∧ '\t' ∉ p.1 := by
  induction l generalizing p with
  | nil => simp [splitTab] at h
  | cons c rest ih =>
    by_cases hc : c = '\t'
    · subst hc
      simp [splitTab] at h
      subst h
      simp
    · simp only [splitTab, if_neg hc, Option.map_eq_some'] at h
      obtain ⟨q, hq, hpq⟩ := h
      obtain ⟨h1, h2⟩ := ih q hq
      subst hpq
      refine ⟨by simpa using h1, ?_⟩
      simp only [List.mem_cons, not_or]
      exact ⟨fun he => hc he.symm, h2⟩

/-- Appending a non-tab character to the end of the input does not change
where the first split occurs. -/
theorem splitTab_concat (l : List Char) (a : Char) (ha : a ≠ '\t') :
    splitTab (l ++ [a]) = (splitTab l).map (fun p => (p.1, p.2 ++ [a])) := by
  induction l with
  | nil => simp [splitTab, ha]
  | cons c rest ih =>
    by_cases hc : c = '\t'
    · simp [splitTab, hc]
    · have hshape : (c :: rest) ++ [a] = c :: (rest ++ [a]) := rfl
      rw [hshape]
      simp only [splitTab, if_neg hc]
      rw [ih]
      cases splitTab rest <;> rfl

/-! Jid codec round trip. -/

theorem digitVal32_digitChar32 : ∀ d, d < 32 → digitVal32 (digitChar32 d) = some d := by
  decide

/-- The accumulator value after parsing the base-32 digits of `n` starting
from `acc` (proof-only companion of `jidEncodeAux`/`jidParseAux`). -/
def jidDigitsVal (n acc : Nat) : Nat :=
  if n = 0 then acc else jidDigitsVal (n / 32) acc * 32 + n % 32
decreasing_by exact Nat.div_lt_self (Nat.pos_of_ne_zero (by assumption)) (by omega)

theorem jidDigitsVal_zero_left (acc : Nat) : jidDigitsVal 0 acc = acc := by
  simp [jidDigitsVal]

theorem jidDigitsVal_pos (n acc : Nat) (h : n ≠ 0) :
    jidDigitsVal n acc = jidDigitsVal (n / 32) acc * 32 + n % 32 := by
  conv_lhs => rw [jidDigitsVal]
  rw [if_neg h]

theorem jidDigitsVal_zero (n : Nat) : jidDigitsVal n 0 = n := by
  induction n using Nat.strong_induction_on with
  | _ n ih =>
    by_cases h : n = 0
    · simp [jidDigitsVal, h]
    · rw [jidDigitsVal_pos n 0 h,
        ih (n / 32) (Nat.div_lt_self (Nat.pos_of_ne_zero h) (by omega))]
      have := Nat.div_add_mod n 32
      omega

theorem jidParseAux_jidEncodeAux (fuel : Nat) :
    ∀ n rest acc, n ≤ fuel →
      jidParseAux (jidEncodeAux fuel n rest) acc = jidParseAux rest (jidDigitsVal n acc) := by
  induction fuel with
  | zero =>
    intro n rest acc hn
    interval_cases n
    simp [jidEncodeAux, jidDigitsVal_zero_left]
  | succ fuel ih =>
    intro n rest acc hn
    by_cases h : n = 0
    · simp [jidEncodeAux, h, jidDigitsVal_zero_left]
    · rw [jidEncodeAux, if_neg h]
      have hdiv : n / 32 ≤ fuel := by
        have := Nat.div_lt_self (Nat.pos_of_ne_zero h) (show 1 < 32 by omega)
        omega
      rw [ih (n / 32) _ acc hdiv]
      simp only [jidParseAux, digitVal32_digitChar32 (n % 32) (Nat.mod_lt n (by omega))]
      rw [jidDigitsVal_pos n acc h]

/-- Round trip of the jid wire codec: the digits of `n` parse back to `n`
(for `n = 0` the encoding is the empty field, which also parses to 0). -/
theorem jidParseChars_jidEncode (n : Nat) : jidParseChars (jidEncode n) = Int.ofNat n := by
  unfold jidParseChars jidEncode
  rw [jidParseAux_jidEncodeAux n n [] 0 (Nat.le_refl n)]
  simp [jidParseAux, jidDigitsVal_zero]

/-- Every character the jid encoder emits is a base-32 digit or comes from
the seed list. -/
theorem mem_jidEncodeAux (fuel : Nat) :
    ∀ n rest c, c ∈ jidEncodeAux fuel n rest →
      c ∈ rest ∨ ∃ d, d < 32 ∧ c = digitChar32 d := by
  induction fuel with
  | zero =>
    intro n rest c hc
    exact Or.inl hc
  | succ fuel ih =>
    intro n rest c hc
    by_cases h : n = 0
    · rw [jidEncodeAux, if_pos h] at hc
      exact Or.inl hc
    · rw [jidEncodeAux, if_neg h] at hc
      rcases ih (n / 32) _ c hc with hm | hd
      · rcases List.mem_cons.mp hm with he | hr
        · exact Or.inr ⟨n % 32, Nat.mod_lt n (by omega), he⟩
        · exact Or.inl hr
      · exact Or.inr hd

theorem tab_not_mem_jidEncode (n : Nat) : '\t' ∉ jidEncode n := by
  intro h
  rcases mem_jidEncodeAux n n [] '\t' h with hm | ⟨d, hd, he⟩
  · simp at hm
  · revert he
    revert hd
    revert d
    decide

/-! Quote codec round trip. -/

theorem hexVal_hexChar : ∀ d, d < 16 → hexVal (hexChar d) = some d := by
  decide

/-- Unquoting steps through the quoted expansion of one character. -/
theorem goUnquoteAux_quoteChar (c : Char) (rest : List Char) :
    goUnquoteAux (quoteChar c ++ rest) = (goUnquoteAux rest).map (fun l => c :: l) := by
  by_cases h1 : c = '"'
  · subst h1
    rw [show quoteChar '"' = ['\\', '"'] from rfl]
    conv_lhs => unfold goUnquoteAux
    simp
  by_cases h2 : c = '\\'
  · subst h2
    rw [show quoteChar '\\' = ['\\', '\\'] from rfl]
    conv_lhs => unfold goUnquoteAux
    simp
  by_cases h3 : c = '\n'
  · subst h3
    rw [show quoteChar '\n' = ['\\', 'n'] from rfl]
    conv_lhs => unfold goUnquoteAux
    simp
  by_cases h4 : c = '\t'
  · subst h4
    rw [show quoteChar '\t' = ['\\', 't'] from rfl]
    conv_lhs => unfold goUnquoteAux
    simp
  by_cases h5 : c = '\r'
  · subst h5
    rw [show quoteChar '\r' = ['\\', 'r'] from rfl]
    conv_lhs => unfold goUnquoteAux
    simp
  by_cases h6 : c.toNat = 7
  · have hc : c = Char.ofNat 7 := by rw [← h6, Char.ofNat_toNat]
    subst hc
    rw [show quoteChar (Char.ofNat 7) = ['\\', 'a'] from rfl]
    conv_lhs => unfold goUnquoteAux
    simp
  by_cases h7 : c.toNat = 8
  · have hc : c = Char.ofNat 8 := by rw [← h7, Char.ofNat_toNat]
    subst hc
    rw [show quoteChar (Char.ofNat 8) = ['\\', 'b'] from rfl]
    conv_lhs => unfold goUnquoteAux
    simp
  by_cases h8 : c.toNat = 11
  · have hc : c = Char.ofNat 11 := by rw [← h8, Char.ofNat_toNat]
    subst hc
    rw [show quoteChar (Char.ofNat 11) = ['\\', 'v'] from rfl]
    conv_lhs => unfold goUnquoteAux
    simp
  by_cases h9 : c.toNat = 12
  · have hc : c = Char.ofNat 12 := by rw [← h9, Char.ofNat_toNat]
    subst hc
    rw [show quoteChar (Char.ofNat 12) = ['\\', 'f'] from rfl]
    conv_lhs => unfold goUnquoteAux
    simp
  by_cases h10 : c.toNat < 32 ∨ c.toNat = 127
  · have hq : quoteChar c = ['\\', 'x', hexChar (c.toNat / 16), hexChar (c.toNat % 16)] := by
      simp [quoteChar, h1, h2, h3, h4, h5, h6, h7, h8, h9, h10]
    rw [hq]
    have hhi : hexVal (hexChar (c.toNat / 16)) = some (c.toNat / 16) :=
      hexVal_hexChar _ (by omega)
    have hlo : hexVal (hexChar (c.toNat % 16)) = some (c.toNat % 16) :=
      hexVal_hexChar _ (by omega)
    conv_lhs => unfold goUnquoteAux
    simp only [List.cons_append, List.nil_append]
    simp [hhi, hlo]
    have hval : c.toNat / 16 * 16 + c.toNat % 16 = c.toNat := by omega
    rw [hval, Char.ofNat_toNat]
  · have hq : quoteChar c = [c] := by
      simp [quoteChar, h1, h2, h3, h4, h5, h6, h7, h8, h9, h10]
    rw [hq]
    conv_lhs => unfold goUnquoteAux
    simp [h1, h2, h3]

/-- Unquoting the quoted body (plus closing quote) recovers the string. -/
theorem goUnquoteAux_flatMap (s : List Char) :
    goUnquoteAux (s.flatMap quoteChar ++ ['"']) = some s := by
  induction s with
  | nil => simp [goUnquoteAux]
  | cons c s ih =>
    rw [List.flatMap_cons, List.append_assoc, goUnquoteAux_quoteChar, ih]
    rfl

/-- Round trip of the payload codec: `strconv.Unquote (strconv.Quote s) = s`. -/
theorem goUnquote_goQuote (s : List Char) : goUnquote (goQuote s) = some s := by
  show goUnquoteAux (s.flatMap quoteChar ++ ['"']) = some s
  exact goUnquoteAux_flatMap s

/-! ## Round-trip and rejection theorems for the wire codec -/

/-- Helper: the jid field text emitted by `Append` for a non-negative jid
is exactly `jidEncode` of it (jid 0 encodes to the empty field, which is
also `jidEncode 0`). -/
theorem jid_field_eq (j : Int) :
    (if 0 < j then jidEncode j.toNat else []) = jidEncode j.toNat := by
  by_cases h : 0 < j
  · rw [if_pos h]
  · rw [if_neg h]
    have h0 : j.toNat = 0 := by omega
    rw [h0]
    rfl

/-- The full round trip for messages with a valid command and non-negative
jid: `wsParse` recovers exactly the message `Append` emitted. -/
theorem wsParse_append (m : wsMsg) (hv : m.What.IsValid = true) (hj : 0 ≤ m.Jid) :
    wsParse m.Append = some m := by
  obtain ⟨d, j, w⟩ := m
  simp only [wsMsg.IsValid] at hv
  have happ : wsMsg.Append ⟨d, j, w⟩ =
      (w.str ++ '\t' :: (jidEncode j.toNat ++ '\t' ::
        (if d = [] then [] else goQuote d))) ++ ['\n'] := by
    simp only [wsMsg.Append, if_pos hj, jid_field_eq]
    simp [List.append_assoc]
  have hj' : (0 : Int) ≤ j := hj
  have hjid : jidParseChars (jidEncode j.toNat) = j := by
    rw [jidParseChars_jidEncode]
    exact Int.toNat_of_nonneg hj'
  rw [happ]
  rw [wsParse]
  rw [List.getLast?_concat, List.dropLast_concat]
  simp only [reduceIte]
  rw [splitTab_append _ _ (tab_not_mem_str w)]
  simp only []
  rw [splitTab_append _ _ (tab_not_mem_jidEncode j.toNat)]
  simp only [whatParse_str, hv, if_true]
  by_cases hd : d = []
  · subst hd
    simp [hjid]
  · rw [if_neg hd]
    have hq : goQuote d = '"' :: (d.flatMap quoteChar ++ ['"']) := rfl
    have hu : goUnquote ('"' :: (d.flatMap quoteChar ++ ['"'])) = some d := by
      rw [← hq]
      exact goUnquote_goQuote d
    rw [hq]
    simp [hu, hjid]

/-- A parse whose input ends without a newline fails. -/
theorem wsParse_no_newline (txt : List Char) (h : txt.getLast? ≠ some '\n') :
    wsParse txt = none := by
  rw [wsParse, if_neg h]

/-- A successful parse needs at least two tabs in the input. -/
theorem wsParse_tab_count (txt : List Char) (h : txt.count '\t' < 2) :
    wsParse txt = none := by
  by_cases hn : txt.getLast? = some '\n'
  · rw [wsParse, if_pos hn]
    have htxt : txt = txt.dropLast ++ ['\n'] := by
      have hne : txt ≠ [] := by
        intro he
        rw [he] at hn
        simp at hn
      conv_lhs => rw [← List.dropLast_concat_getLast hne]
      have hg : txt.getLast hne = '\n' := by
        have h2 := List.getLast?_eq_getLast txt hne
        rw [hn] at h2
        exact (Option.some.inj h2).symm
      rw [hg]
    match h1 : splitTab txt.dropLast with
    | none => rfl
    | some (cmd, rest1) =>
      match h2 : splitTab rest1 with
      | none => simp [h2]
      | some (jidStr, dataRaw) =>
        exfalso
        obtain ⟨hb1, _⟩ := splitTab_eq_some _ _ h1
        obtain ⟨hb2, _⟩ := splitTab_eq_some _ _ h2
        have : txt.count '\t' ≥ 2 := by
          rw [htxt, hb1, hb2]
          simp [List.count_append, List.count_cons]
          omega
        omega
  · exact wsParse_no_newline txt hn

/-- An unrecognized command token before the first tab fails the parse. -/
theorem wsParse_bad_command (txt cmd rest : List Char)
    (hs : splitTab txt = some (cmd, rest)) (hbad : (whatParse cmd).IsValid = false) :
    wsParse txt = none := by
  by_cases hn : txt.getLast? = some '\n'
  · rw [wsParse, if_pos hn]
    have hne : txt ≠ [] := by
      intro he
      rw [he] at hn
      simp at hn
    have htxt : txt = txt.dropLast ++ ['\n'] := by
      conv_lhs => rw [← List.dropLast_concat_getLast hne]
      have hg : txt.getLast hne = '\n' := by
        have h2 := List.getLast?_eq_getLast txt hne
        rw [hn] at h2
        exact (Option.some.inj h2).symm
      rw [hg]
    have hsplit : splitTab txt = (splitTab txt.dropLast).map (fun p => (p.1, p.2 ++ ['\n'])) := by
      conv_lhs => rw [htxt]
      exact splitTab_concat _ _ (by decide)
    match h1 : splitTab txt.dropLast with
    | none => rfl
    | some (cmd', rest1) =>
      have hcmd : cmd = cmd' := by
        rw [h1] at hsplit
        rw [hsplit] at hs
        simp at hs
        exact hs.1.symm
      subst hcmd
      match h2 : splitTab rest1 with
      | none => simp [h2]
      | some (jidStr, dataRaw) =>
        simp [h2, hbad]
  · exact wsParse_no_newline txt hn

/-! ## Claim C1 (round trip) -/

/-- C1 (counterexample): the claim as stated is false.  The message with
command `Click` (a valid command token, so a "valid Message" in the claim's
sense), empty payload and jid `-1` (the "absent jid" case: `Append` omits
the jid field and its tab entirely) does not round-trip: the encoded frame
has only one tab, so `wsParse` rejects it. -/
theorem c1_roundtrip_counterexample :
    wsMsg.IsValid ⟨[], -1, What.Click⟩ = true ∧
      wsParse (wsMsg.Append ⟨[], -1, What.Click⟩) = none := by
  constructor
  · decide
  · decide

/-- C1 (amended): for every wsMsg whose command is a valid command token
and whose jid is non-negative (so that `Append` actually emits the jid
field), decoding the encoding returns `(m, ok=true)`: command, jid and
payload are preserved exactly, including an empty payload and jid 0
(encoded as an empty jid field). -/
theorem c1_roundtrip (m : wsMsg) (hv : m.IsValid = true) (hj : 0 ≤ m.Jid) :
    wsParse m.Append = some m :=
  wsParse_append m hv hj

/-- C1 (witness): the amended round trip at a concrete message. -/
theorem c1_roundtrip_witness :
    wsMsg.IsValid ⟨"hi".toList, 3, What.Input⟩ = true ∧
      (0 : Int) ≤ (⟨"hi".toList, 3, What.Input⟩ : wsMsg).Jid ∧
      wsParse (wsMsg.Append ⟨"hi".toList, 3, What.Input⟩) =
        some ⟨"hi".toList, 3, What.Input⟩ :=
  ⟨by decide, by decide, c1_roundtrip _ (by decide) (by decide)⟩

/-! ## Claim C5 (decode rejects malformed frames) -/

/-- C5: decoding any character sequence that lacks the trailing newline, or
contains fewer than two tab separators, or whose command token (the text
before the first tab) is not a recognized command, returns not-ok
(`none`).  `wsParse` is a total function of its input, so no input can
"raise": every failure is the not-ok result. -/
theorem c5_reject_malformed (txt : List Char)
    (h : txt.getLast? ≠ some '\n' ∨ txt.count '\t' < 2 ∨
      ∃ cmd rest, splitTab txt = some (cmd, rest) ∧ (whatParse cmd).IsValid = false) :
    wsParse txt = none := by
  rcases h with h | h | ⟨cmd, rest, hs, hbad⟩
  · exact wsParse_no_newline txt h
  · exact wsParse_tab_count txt h
  · exact wsParse_bad_command txt cmd rest hs hbad

/-- C5 (witness): a frame without a trailing newline is rejected. -/
theorem c5_reject_malformed_witness :
    (('x' :: []) : List Char).getLast? ≠ some '\n' ∧ wsParse ('x' :: []) = none :=
  ⟨by decide, c5_reject_malformed _ (Or.inl (by decide))⟩

/-! ## The connection event loop (`Request.process` and friends, unnamed/part_002)

The part_002 revision keeps a per-connection map of registered HTML ids to
event functions (`Request.elems : map[string]EventFn`) and processes
`Message` values (element id, command kind, payload, origin connection).
Handlers (`EventFn`) take the element id, the event kind and the payload
and return an error or nil; the `*Request` receiver is implicit in the
connection state and errors are modelled as `Option String` (the error
text, `none` for nil). -/

/-- `EventFn` from part_002 (receiver and `*Request` argument implicit). -/
def EventFnM := String → String → String → Option String

/-- Modelled from the spec: the `Message` struct of the part_002 revision is
repo code outside the provided sources (only its fields are visible at the
use sites): target element id `Elem`, command kind `What`, payload `Data`,
and the internal-only origin-connection field `from` (modelled as the
originating connection's identity, `none` when unset). -/
structure Message where
  Elem : String
  What : String
  Data : String
  from' : Option Nat
deriving DecidableEq, Repr

/-- `metaIds` from part_002: the reserved pseudo-ids, always considered
registered. -/
def metaIds : List String := [" reload", " ping", " redirect", " alert"]

/-- Lookup in the registered-elements map (Go `rq.elems[jid]`): `none` when
the key is absent, `some fn` when present (where `fn` may itself be the
nil handler `none`). -/
def lookupElems : List (String × Option EventFnM) → String → Option (Option EventFnM)
  | [], _ => none
  | (k, v) :: rest, jid => if k = jid then some v else lookupElems rest jid

/-- Go map assignment `elems[k] = v`: replace an existing key's value or add
the key. -/
def mapInsert : List (String × Option EventFnM) → String → Option EventFnM →
    List (String × Option EventFnM)
  | [], k, v => [(k, v)]
  | (k', v') :: rest, k, v =>
    if k' = k then (k, v) :: rest else (k', v') :: mapInsert rest k v

/-- The connection state the event loop reads: the connection's identity
(pointer identity of the `*Request`) and its registered-elements map. -/
structure RqState where
  id : Nat
  elems : List (String × Option EventFnM)

/-- `Request.GetEventFn` from part_002: look the id up in the elements map;
when absent, the id still counts as registered if it is a reserved meta id
(with a nil function). -/
def getEventFn (rq : RqState) (jid : String) : Option EventFnM × Bool :=
  match lookupElems rq.elems jid with
  | some fn => (fn, true)
  | none => (none, decide (jid ∈ metaIds))

/-- `html.EscapeString` replacement for one character: `&`, `'`, `<`, `>`
and `"` become entities. -/
def escapeChar (c : Char) : List Char :=
  if c = '&' then "&amp;".toList
  else if c = Char.ofNat 39 then "&#39;".toList
  else if c = '<' then "&lt;".toList
  else if c = '>' then "&gt;".toList
  else if c = '"' then "&#34;".toList
  else [c]

/-- `html.EscapeString` from the Go standard library. -/
def htmlEscape (s : String) : String := String.mk (s.toList.flatMap escapeChar)

/-- `makeAlertDangerMessage` from part_002: a nil error yields no message;
a non-nil error yields an alert-class message with the sentinel target
`" alert"`, level `"danger"` and the HTML-escaped error text. -/
def makeAlertDangerMessage (err : Option String) : Option Message :=
  match err with
  | none => none
  | some e => some ⟨" alert", "danger", htmlEscape e, none⟩

/-- `Request.defaultChSize` from part_002: `8 + len(rq.elems)*4`. -/
def defaultChSize (rq : RqState) : Nat := 8 + rq.elems.length * 4

/-- Modelled from the spec: the call site of `Request.process` (the
`ServeHTTP` of the part_002 revision) sizes `outboundMsgCh` with
`Request.defaultChSize`; the `ws.go` present under the sources is from a
later revision with a different channel layout, and the spec fixes the
sizing as "proportional to the number of registered elements". -/
def outboundChCap (rq : RqState) : Nat := defaultChSize rq

/-- Capacity of the handler-call queue: `Request.process` creates it as
`make(chan eventFnCall, cap(outboundMsgCh))`. -/
def eventCallChCap (rq : RqState) : Nat := outboundChCap rq

/-- The externally observable action of one iteration of the
`Request.process` loop body. -/
inductive ProcessEffect where
  | exitLoop
  | skip
  | enqueue (call : Message)
  | enqueueFullExit
  | outbound (msg : Message)
  | outboundFullExit
  | panicked
deriving DecidableEq, Repr

/-- The `select` sending to `outboundMsgCh` in `Request.process`: its cases
are the two done channels (do nothing), the outbound send, and a `default`
that logs and returns.  Go picks nondeterministically among ready cases;
the model resolves the choice by consulting the done signals first (the
claims proved below do not depend on this resolution). -/
def outboundSelect (jawsDone ctxDone outHasRoom : Bool) (m : Message) : ProcessEffect :=
  if jawsDone || ctxDone then .skip
  else if outHasRoom then .outbound m
  else .outboundFullExit

/-- One iteration of the `Request.process` message loop (part_002 lines
434-495), given the message the select delivered (`none` models a closed
channel: the loop returns), whether it arrived on `incomingMsgCh`, and the
environment: readiness of the done channels and free space in the two
bounded channels.  The `enqueue` effect carries the message of the queued
`eventFnCall` (its function component is the registry's entry for the
message's target).  A `"hook"` message whose registered function is nil
would make the Go code call a nil function: effect `panicked`. -/
def processMsg (rq : RqState) (incoming : Bool) (msg? : Option Message)
    (jawsDone ctxDone evHasRoom outHasRoom : Bool) : ProcessEffect :=
  match msg? with
  | none => .exitLoop
  | some msg =>
    if msg.from' = some rq.id then .skip
    else
      match getEventFn rq msg.Elem with
      | (fn, true) =>
        if incoming || msg.What == "trigger" then
          match fn with
          | some _ => if evHasRoom then .enqueue msg else .enqueueFullExit
          | none => .skip
        else
          if msg.What = "hook" then
            match fn with
            | none => .panicked
            | some f =>
              match makeAlertDangerMessage (f msg.Elem msg.What msg.Data) with
              | none => .skip
              | some m => outboundSelect jawsDone ctxDone outHasRoom m
          else outboundSelect jawsDone ctxDone outHasRoom msg
      | (_, false) => .skip

/-- `Request.Broadcast` from part_002: stamps the originating connection
into the message's origin field (and then hands it to the hub, whose code
is outside the provided sources). -/
def Request.Broadcast (rq : RqState) (msg : Message) : Message :=
  { msg with from' := some rq.id }

/-- The externally observable action of the handler dispatcher
(`Request.eventCaller`) for one queued call. -/
inductive DispatchEffect where
  | noEffect
  | sent (m : Message)
  | droppedLog
deriving DecidableEq, Repr

/-- One step of `Request.eventCaller` (part_002 lines 499-510): invoke the
handler; a nil error does nothing, a non-nil error is wrapped by
`makeAlertDangerMessage` and offered to the outbound channel without
blocking — dropped with a log line when the channel is full.  (The Go code
tests `err != nil` before wrapping; since `makeAlertDangerMessage` is the
identity `none ↦ none`, folding the test through it is equivalent.) -/
def eventCallerStep (fn : EventFnM) (msg : Message) (outHasRoom : Bool) : DispatchEffect :=
  match makeAlertDangerMessage (fn msg.Elem msg.What msg.Data) with
  | none => .noEffect
  | some m => if outHasRoom then .sent m else .droppedLog

/-! ## Handler registration (`Request.RegisterEventFn`) -/

/-- The `MakeID` retry loop in `RegisterEventFn` for an empty jid:
`MakeID` itself is repo code outside the provided sources (modelled from
the spec as an arbitrary stream of candidate ids, passed in as `genIds`);
the loop takes the first candidate not already in the map.  `none` models
the loop never finding a fresh id within the stream. -/
def genFresh (genIds : List String) (elems : List (String × Option EventFnM))
    (fn : Option EventFnM) : Option (String × List (String × Option EventFnM)) :=
  match genIds with
  | [] => none
  | g :: gs =>
    match lookupElems elems g with
    | none => some (g, mapInsert elems g fn)
    | some _ => genFresh gs elems fn

/-- `Request.RegisterEventFn` from part_002: a non-empty jid that is
already registered is returned unchanged when the new function is nil
(preserving the prior handler); otherwise the map entry is assigned.  An
empty jid runs the `MakeID` loop. -/
def registerEventFn (genIds : List String) (elems : List (String × Option EventFnM))
    (jid : String) (fn : Option EventFnM) :
    Option (String × List (String × Option EventFnM)) :=
  if jid ≠ "" then
    match lookupElems elems jid, fn with
    | some _, none => some (jid, elems)
    | _, _ => some (jid, mapInsert elems jid fn)
  else
    genFresh genIds elems fn

/-! ## Reconnection validation (`Request.start`) -/

/-- Modelled from the spec: `equalIP` (outside the provided sources)
compares two remote-address fingerprints, nil equalling nil. -/
def equalIP (a b : Option String) : Bool := a = b

/-- `Request.start` from part_002: compare the stored remote-address
fingerprint with the one parsed from the new HTTP request's remote
address (`parseIP` is outside the provided sources and stays a parameter;
a nil request parses to a nil address).  Equal fingerprints return nil;
anything else returns a non-nil error.  The error value is modelled as the
pair of fingerprints that `fmt.Errorf` formats into the message. -/
def Request.start (parseIPf : String → Option String) (remoteIP : Option String)
    (hr : Option String) : Option (Option String × Option String) :=
  let actualIP := match hr with
    | some addr => parseIPf addr
    | none => none
  if equalIP remoteIP actualIP then none
  else some (remoteIP, actualIP)

/-! ## Event-loop and registry lemmas -/

theorem lookupElems_mapInsert_self (m : List (String × Option EventFnM)) (k : String)
    (v : Option EventFnM) : lookupElems (mapInsert m k v) k = some v := by
  induction m with
  | nil => simp [mapInsert, lookupElems]
  | cons hd rest ih =>
    obtain ⟨k', v'⟩ := hd
    by_cases h : k' = k
    · simp [mapInsert, h, lookupElems]
    · simp [mapInsert, h, lookupElems, ih]

theorem genFresh_spec (genIds : List String) (elems : List (String × Option EventFnM))
    (fn : Option EventFnM) (j : String) (elems' : List (String × Option EventFnM))
    (h : genFresh genIds elems fn = some (j, elems')) :
    lookupElems elems j = none ∧ elems' = mapInsert elems j fn := by
  induction genIds with
  | nil => simp [genFresh] at h
  | cons g gs ih =>
    rw [genFresh] at h
    match hl : lookupElems elems g with
    | none =>
      rw [hl] at h
      simp at h
      obtain ⟨h1, h2⟩ := h
      subst h1
      exact ⟨hl, h2.symm⟩
    | some fn' =>
      rw [hl] at h
      exact ih h

/-! ## Claim C2 (self-originated broadcasts discarded) -/

/-- C2: for every message delivered to the `Request.process` loop whose
origin field equals the connection itself, the loop discards it and
continues — no outbound frame, no queued handler call — for every message
kind, arrival channel and environment; and `Request.Broadcast` stamps the
originating connection into the message's origin field before
publishing. -/
theorem c2_self_broadcast_discarded :
    (∀ (rq : RqState) (incoming : Bool) (msg : Message)
        (jawsDone ctxDone evHasRoom outHasRoom : Bool),
      msg.from' = some rq.id →
      processMsg rq incoming (some msg) jawsDone ctxDone evHasRoom outHasRoom =
        ProcessEffect.skip) ∧
    (∀ (rq : RqState) (msg : Message), (Request.Broadcast rq msg).from' = some rq.id) := by
  constructor
  · intro rq incoming msg jd cd er hr h
    simp [processMsg, h]
  · intro rq msg
    rfl

/-- C2 (witness): a concrete self-originated message is skipped, and a
concrete broadcast is stamped. -/
theorem c2_self_broadcast_discarded_witness :
    (⟨"e", "input", "d", some 7⟩ : Message).from' = some (RqState.mk 7 []).id ∧
      processMsg ⟨7, []⟩ true (some ⟨"e", "input", "d", some 7⟩) false false true true =
        ProcessEffect.skip ∧
      (Request.Broadcast ⟨7, []⟩ ⟨"e", "input", "d", none⟩).from' = some 7 :=
  ⟨rfl, c2_self_broadcast_discarded.1 ⟨7, []⟩ true ⟨"e", "input", "d", some 7⟩
      false false true true rfl,
    c2_self_broadcast_discarded.2 ⟨7, []⟩ ⟨"e", "input", "d", none⟩⟩

/-! ## Claim C3 (unregistered targets discarded) -/

/-- C3: a message whose target element id is neither a key of the
connection's registered-elements map nor a reserved meta id is discarded
by the `Request.process` loop: no outbound traffic, no queued handler
call, for every arrival channel and environment. -/
theorem c3_unregistered_discarded (rq : RqState) (incoming : Bool) (msg : Message)
    (jawsDone ctxDone evHasRoom outHasRoom : Bool)
    (hlook : lookupElems rq.elems msg.Elem = none) (hmeta : msg.Elem ∉ metaIds) :
    processMsg rq incoming (some msg) jawsDone ctxDone evHasRoom outHasRoom =
      ProcessEffect.skip := by
  by_cases hself : msg.from' = some rq.id
  · simp [processMsg, hself]
  · have hok : getEventFn rq msg.Elem = (none, false) := by
      simp [getEventFn, hlook, hmeta]
    simp [processMsg, hself, hok]

/-- C3 (witness): a concrete message for an unknown id is skipped. -/
theorem c3_unregistered_discarded_witness :
    lookupElems (RqState.mk 1 []).elems "zz" = none ∧ "zz" ∉ metaIds ∧
      processMsg ⟨1, []⟩ true (some ⟨"zz", "input", "", none⟩) false false true true =
        ProcessEffect.skip :=
  ⟨rfl, by decide,
    c3_unregistered_discarded ⟨1, []⟩ true ⟨"zz", "input", "", none⟩
      false false true true rfl (by decide)⟩

/-! ## Claim C4 (bounded handler queue, overload is fatal) -/

/-- C4: the handler-call channel's capacity equals the outbound channel's,
which is `defaultChSize = 8 + 4·(number of registered elements)` — growing
linearly with the registered elements; and whenever a handler call is due
(registered target with a non-nil handler, message incoming from the
transport or a trigger message) but the channel has no room, the loop's
effect is `enqueueFullExit`: it logs and returns, terminating the
connection instead of blocking. -/
theorem c4_bounded_queue_overload :
    (∀ rq : RqState, eventCallChCap rq = 8 + rq.elems.length * 4) ∧
    (∀ (rq : RqState) (incoming : Bool) (msg : Message)
        (jawsDone ctxDone outHasRoom : Bool) (f : EventFnM),
      msg.from' ≠ some rq.id →
      lookupElems rq.elems msg.Elem = some (some f) →
      (incoming = true ∨ msg.What = "trigger") →
      processMsg rq incoming (some msg) jawsDone ctxDone false outHasRoom =
        ProcessEffect.enqueueFullExit) := by
  constructor
  · intro rq
    rfl
  · intro rq incoming msg jd cd hr f hself hlook hkind
    have hok : getEventFn rq msg.Elem = (some f, true) := by
      simp [getEventFn, hlook]
    rcases hkind with h | h
    · subst h
      simp [processMsg, hself, hok]
    · simp [processMsg, hself, hok, h]

/-- C4 (witness): a concrete connection with one registered element has
queue capacity 12, and a full queue terminates the loop. -/
theorem c4_bounded_queue_overload_witness :
    eventCallChCap ⟨1, [("a", some (fun _ _ _ => none))]⟩ = 12 ∧
      processMsg ⟨1, [("a", some (fun _ _ _ => none))]⟩ true
          (some ⟨"a", "input", "x", none⟩) false false false true =
        ProcessEffect.enqueueFullExit :=
  ⟨c4_bounded_queue_overload.1 ⟨1, [("a", some (fun _ _ _ => none))]⟩,
    c4_bounded_queue_overload.2 ⟨1, [("a", some (fun _ _ _ => none))]⟩ true
      ⟨"a", "input", "x", none⟩ false false true (fun _ _ _ => none)
      (by simp) rfl (Or.inl rfl)⟩

/-! ## Claim C6 (RegisterEventFn contract, reserved meta ids) -/

/-- C6: `RegisterEventFn` with an empty jid generates a fresh jid not
already in the map, registers the handler under it and returns it;
with an existing jid and a nil handler it returns that jid leaving the
map (hence the previously registered handler) unchanged; and `GetEventFn`
reports the reserved meta ids as registered for every connection state,
whether or not an explicit entry exists. -/
theorem c6_register_contract :
    (∀ (genIds : List String) (elems : List (String × Option EventFnM))
        (fn : Option EventFnM) (j : String) (elems' : List (String × Option EventFnM)),
      registerEventFn genIds elems "" fn = some (j, elems') →
      lookupElems elems j = none ∧ elems' = mapInsert elems j fn ∧
        lookupElems elems' j = some fn) ∧
    (∀ (genIds : List String) (elems : List (String × Option EventFnM))
        (jid : String) (fn0 : Option EventFnM),
      jid ≠ "" → lookupElems elems jid = some fn0 →
      registerEventFn genIds elems jid none = some (jid, elems)) ∧
    (∀ (rq : RqState) (id : String), id ∈ metaIds → (getEventFn rq id).2 = true) := by
  refine ⟨?_, ?_, ?_⟩
  · intro genIds elems fn j elems' h
    rw [registerEventFn.eq_def, if_neg (show ¬(("" : String) ≠ "") by simp)] at h
    obtain ⟨h1, h2⟩ := genFresh_spec genIds elems fn j elems' h
    exact ⟨h1, h2, h2 ▸ lookupElems_mapInsert_self elems j fn⟩
  · intro genIds elems jid fn0 hne hl
    rw [registerEventFn.eq_def, if_pos hne, hl]
  · intro rq id hid
    rw [getEventFn]
    match hl : lookupElems rq.elems id with
    | some fn => rfl
    | none => simpa using hid

/-- C6 (witness): concrete instances of all three parts of the contract. -/
theorem c6_register_contract_witness :
    (lookupElems ([] : List (String × Option EventFnM)) "x" = none ∧
      [("x", (none : Option EventFnM))] = mapInsert [] "x" none ∧
      lookupElems [("x", (none : Option EventFnM))] "x" = some none) ∧
    registerEventFn ["g"] [("a", (none : Option EventFnM))] "a" none =
      some ("a", [("a", none)]) ∧
    (getEventFn ⟨1, []⟩ " alert").2 = true :=
  ⟨c6_register_contract.1 ["x"] [] none "x" [("x", none)] rfl,
    c6_register_contract.2.1 ["g"] [("a", none)] "a" none (by decide) rfl,
    c6_register_contract.2.2 ⟨1, []⟩ " alert" (by decide)⟩

/-! ## Claim C8 (handler errors become alert messages) -/

/-- C8: when a dispatched handler returns a non-nil error, the dispatcher
wraps it into an alert-class message (sentinel target `" alert"`, level
`"danger"`, HTML-escaped error text) and offers it to the outbound channel
without blocking — when the channel is full it drops it with a log line;
a nil handler result produces no outbound message. -/
theorem c8_dispatcher_error_alert :
    (∀ (fn : EventFnM) (msg : Message) (outHasRoom : Bool) (e : String),
      fn msg.Elem msg.What msg.Data = some e →
      eventCallerStep fn msg outHasRoom =
        if outHasRoom then DispatchEffect.sent ⟨" alert", "danger", htmlEscape e, none⟩
        else DispatchEffect.droppedLog) ∧
    (∀ (fn : EventFnM) (msg : Message) (outHasRoom : Bool),
      fn msg.Elem msg.What msg.Data = none →
      eventCallerStep fn msg outHasRoom = DispatchEffect.noEffect) := by
  constructor
  · intro fn msg hr e h
    simp [eventCallerStep, makeAlertDangerMessage, h]
  · intro fn msg hr h
    simp [eventCallerStep, makeAlertDangerMessage, h]

/-- C8 (witness): a concrete failing handler call produces the escaped
danger alert; note the `<` in the error text is HTML-escaped. -/
theorem c8_dispatcher_error_alert_witness :
    ((fun _ _ _ => some "x<y") : EventFnM) "e" "input" "" = some "x<y" ∧
      eventCallerStep (fun _ _ _ => some "x<y") ⟨"e", "input", "", none⟩ true =
        DispatchEffect.sent ⟨" alert", "danger", "x&lt;y", none⟩ := by
  refine ⟨rfl, ?_⟩
  have h := c8_dispatcher_error_alert.1 (fun _ _ _ => some "x<y")
    ⟨"e", "input", "", none⟩ true "x<y" rfl
  rw [h]
  rfl

/-! ## Claim C9 (reconnect fingerprint validation) -/

/-- C9: `Request.start` returns nil exactly when the fingerprint parsed
from the new request's remote address equals the stored one, and returns
a non-nil error (carrying both fingerprints) on any mismatch, before any
message processing. -/
theorem c9_reconnect_fingerprint (parseIPf : String → Option String)
    (remoteIP : Option String) (hr : Option String) :
    (Request.start parseIPf remoteIP hr = none ↔ remoteIP = hr.bind parseIPf) ∧
    (remoteIP ≠ hr.bind parseIPf →
      Request.start parseIPf remoteIP hr = some (remoteIP, hr.bind parseIPf)) := by
  have hmatch : (match hr with
      | some addr => parseIPf addr
      | none => none) = hr.bind parseIPf := by
    cases hr <;> rfl
  have hstart : Request.start parseIPf remoteIP hr =
      (if remoteIP = hr.bind parseIPf then none
        else some (remoteIP, hr.bind parseIPf)) := by
    simp [Request.start.eq_def, equalIP, hmatch]
  rw [hstart]
  by_cases h : remoteIP = hr.bind parseIPf
  · simp [h]
  · simp [h]

/-- C9 (witness): a concrete mismatching reconnect is rejected. -/
theorem c9_reconnect_fingerprint_witness :
    (some "1.2.3.4" : Option String) ≠ (some "9.9.9.9" : Option String).bind some ∧
      Request.start some (some "1.2.3.4") (some "9.9.9.9") =
        some (some "1.2.3.4", some "9.9.9.9") :=
  ⟨by decide,
    (c9_reconnect_fingerprint some (some "1.2.3.4") (some "9.9.9.9")).2 (by decide)⟩

/-! ## The element registry of the `ui.go` revision (`newElementLocked`)

The `ui.go` under the sources is from the revision whose `Request` keeps a
growable element list (`elems []*Element`, jid n stored at index n-1) and
a tag map `map[interface{}][]*Element`.  Stored elements are modelled by
their jid (which identifies them within the list); tag-map keys compare
Go interface values (type and value), so a `Jid`-typed key is distinct
from every application-supplied tag. -/

/-- A tag-map key of the ui.go revision. -/
inductive GoTag where
  | jidKey (j : Nat)
  | appTag (s : String)
deriving DecidableEq, Repr

/-- The `Element` of the ui.go revision: its jid plus an opaque handle
standing for the `ui` object and data. -/
structure UIElement where
  jid : Nat
  ui : Nat
deriving DecidableEq, Repr

/-- Registry state of the ui.go revision. -/
structure UIState where
  elems : List UIElement
  tagMap : List (GoTag × List Nat)
deriving DecidableEq, Repr

/-- Go `rq.tagMap[tag]` (a missing key reads as the empty slice). -/
def tagLookup : List (GoTag × List Nat) → GoTag → List Nat
  | [], _ => []
  | (k, v) :: rest, t => if k = t then v else tagLookup rest t

/-- Go `rq.tagMap[tag] = append(rq.tagMap[tag], elem)`. -/
def tagPush : List (GoTag × List Nat) → GoTag → Nat → List (GoTag × List Nat)
  | [], t, j => [(t, [j])]
  | (k, v) :: rest, t, j =>
    if k = t then (k, v ++ [j]) :: rest else (k, v) :: tagPush rest t j

/-- `Request.newElementLocked` from ui.go: with a non-empty tag list,
allocate the next jid (`len(rq.elems)+1`), append the element to the
list, and index it in the tag map under its own jid-as-key and under
every supplied tag; with an empty tag list do nothing and return no
element. -/
def newElementLocked (st : UIState) (tags : List GoTag) (ui : Nat) :
    UIState × Option UIElement :=
  if tags = [] then (st, none)
  else
    let elem : UIElement := ⟨st.elems.length + 1, ui⟩
    let st1 : UIState := { st with elems := st.elems ++ [elem] }
    let st2 : UIState :=
      { st1 with tagMap := tagPush st1.tagMap (GoTag.jidKey elem.jid) elem.jid }
    let st3 : UIState :=
      { st2 with tagMap := tags.foldl (fun m t => tagPush m t elem.jid) st2.tagMap }
    (st3, some elem)

theorem tagLookup_tagPush_self (m : List (GoTag × List Nat)) (k : GoTag) (j : Nat) :
    tagLookup (tagPush m k j) k = tagLookup m k ++ [j] := by
  induction m with
  | nil => simp [tagPush, tagLookup]
  | cons hd rest ih =>
    obtain ⟨k', v'⟩ := hd
    by_cases h : k' = k
    · simp [tagPush, tagLookup, h]
    · simp [tagPush, tagLookup, h, ih]

theorem tagLookup_tagPush_other (m : List (GoTag × List Nat)) (k t : GoTag) (j : Nat)
    (h : t ≠ k) : tagLookup (tagPush m k j) t = tagLookup m t := by
  have h' : ¬k = t := fun he => h he.symm
  induction m with
  | nil => simp [tagPush, tagLookup, h']
  | cons hd rest ih =>
    obtain ⟨k', v'⟩ := hd
    by_cases hk : k' = k
    · subst hk
      simp [tagPush, tagLookup, h']
    · simp only [tagPush, if_neg hk, tagLookup]
      by_cases ht : k' = t
      · simp [ht]
      · simp [ht, ih]

theorem mem_tagLookup_foldl_of_mem (tags : List GoTag) (j : Nat) :
    ∀ (m : List (GoTag × List Nat)) (t : GoTag), j ∈ tagLookup m t →
      j ∈ tagLookup (tags.foldl (fun m t => tagPush m t j) m) t := by
  induction tags with
  | nil =>
    intro m t h
    simpa using h
  | cons a tags ih =>
    intro m t h
    rw [List.foldl_cons]
    apply ih
    by_cases ha : t = a
    · subst ha
      rw [tagLookup_tagPush_self]
      exact List.mem_append_left _ h
    · rw [tagLookup_tagPush_other _ _ _ _ ha]
      exact h

theorem mem_tagLookup_foldl (tags : List GoTag) (j : Nat) :
    ∀ (m : List (GoTag × List Nat)) (t : GoTag), t ∈ tags →
      j ∈ tagLookup (tags.foldl (fun m t => tagPush m t j) m) t := by
  induction tags with
  | nil =>
    intro m t h
    simp at h
  | cons a tags ih =>
    intro m t h
    rcases List.mem_cons.mp h with he | hm
    · subst he
      rw [List.foldl_cons]
      apply mem_tagLookup_foldl_of_mem
      rw [tagLookup_tagPush_self]
      exact List.mem_append_right _ (List.mem_singleton.mpr rfl)
    · rw [List.foldl_cons]
      exact ih _ t hm

/-! ## Claim C7 (element creation and tag indexing) -/

/-- C7: creating an element with a non-empty tag list allocates the next
jid — one plus the number of existing elements, hence monotonic per
connection starting at 1 — stores the element at the end of the element
list, and indexes it in the tag map under its own jid-as-key and under
every supplied tag; with an empty tag list nothing is allocated and no
addressable element is returned. -/
theorem c7_new_element (st : UIState) (tags : List GoTag) (ui : Nat) :
    (tags = [] → newElementLocked st tags ui = (st, none)) ∧
    (tags ≠ [] →
      ∃ e, (newElementLocked st tags ui).2 = some e ∧
        e.jid = st.elems.length + 1 ∧
        (newElementLocked st tags ui).1.elems = st.elems ++ [e] ∧
        e.jid ∈ tagLookup (newElementLocked st tags ui).1.tagMap (GoTag.jidKey e.jid) ∧
        ∀ t ∈ tags, e.jid ∈ tagLookup (newElementLocked st tags ui).1.tagMap t) := by
  constructor
  · intro h
    rw [newElementLocked, if_pos h]
  · intro h
    rw [newElementLocked, if_neg h]
    refine ⟨⟨st.elems.length + 1, ui⟩, rfl, rfl, rfl, ?_, ?_⟩
    · apply mem_tagLookup_foldl_of_mem
      rw [tagLookup_tagPush_self]
      exact List.mem_append_right _ (List.mem_singleton.mpr rfl)
    · intro t ht
      exact mem_tagLookup_foldl tags _ _ t ht

/-- C7 (witness): one concrete element creation with a single tag. -/
theorem c7_new_element_witness :
    ([GoTag.appTag "x"] : List GoTag) ≠ [] ∧
      ∃ e, (newElementLocked ⟨[], []⟩ [GoTag.appTag "x"] 5).2 = some e ∧
        e.jid = ([] : List UIElement).length + 1 ∧
        (newElementLocked ⟨[], []⟩ [GoTag.appTag "x"] 5).1.elems = [] ++ [e] ∧
        e.jid ∈ tagLookup (newElementLocked ⟨[], []⟩ [GoTag.appTag "x"] 5).1.tagMap
          (GoTag.jidKey e.jid) ∧
        ∀ t ∈ [GoTag.appTag "x"],
          e.jid ∈ tagLookup (newElementLocked ⟨[], []⟩ [GoTag.appTag "x"] 5).1.tagMap t :=
  ⟨by decide, (c7_new_element ⟨[], []⟩ [GoTag.appTag "x"] 5).2 (by decide)⟩

/-! ## Typed input wrappers (part_002 `maybeInputFloat` / `Bool` / `Date`) -/

/-- Stand-in carrier for Go `float64` values: only the zero value matters
on the verified paths, and parsing stays parametric, so float arithmetic
is never modelled. -/
abbrev GoFloat := Rat

/-- Go `time.Time` restricted to what `time.Parse(ISO8601, ·)` produces;
the Go zero time is 0001-01-01. -/
structure GoTime where
  year : Nat
  month : Nat
  day : Nat
deriving DecidableEq, Repr

/-- The zero `time.Time`. -/
def GoTime.zero : GoTime := ⟨1, 1, 1⟩

/-- The closure `Request.maybeInputFloat` builds for a non-nil callback
(part_002 lines 573-590): on an `"input"` event an empty payload skips
parsing and passes the float zero value; a non-empty payload is parsed
first (`strconv.ParseFloat` is Go standard library and stays a
parameter), and a parse error is returned without invoking the
callback.  Any other event kind returns nil. -/
def maybeInputFloatWf (parseFloat : String → Except String GoFloat)
    (fn : GoFloat → Option String) : EventFnM :=
  fun _id evt val =>
    if evt = "input" then
      if val ≠ "" then
        match parseFloat val with
        | .error e => some e
        | .ok v => fn v
      else fn 0
    else none

/-- `Request.maybeInputFloat`: nil callback registers a nil handler,
otherwise the wrapper closure is registered. -/
def maybeInputFloat (genIds : List String) (elems : List (String × Option EventFnM))
    (jid : String) (parseFloat : String → Except String GoFloat)
    (fn : Option (GoFloat → Option String)) :
    Option (String × List (String × Option EventFnM)) :=
  registerEventFn genIds elems jid (fn.map (maybeInputFloatWf parseFloat))

/-- The closure `Request.maybeInputBool` builds for a non-nil callback
(part_002 lines 592-609); `strconv.ParseBool` stays a parameter. -/
def maybeInputBoolWf (parseBool : String → Except String Bool)
    (fn : Bool → Option String) : EventFnM :=
  fun _id evt val =>
    if evt = "input" then
      if val ≠ "" then
        match parseBool val with
        | .error e => some e
        | .ok v => fn v
      else fn false
    else none

/-- `Request.maybeInputBool`. -/
def maybeInputBool (genIds : List String) (elems : List (String × Option EventFnM))
    (jid : String) (parseBool : String → Except String Bool)
    (fn : Option (Bool → Option String)) :
    Option (String × List (String × Option EventFnM)) :=
  registerEventFn genIds elems jid (fn.map (maybeInputBoolWf parseBool))

/-- The closure `Request.maybeInputDate` builds for a non-nil callback
(part_002 lines 611-628); `time.Parse(ISO8601, ·)` stays a parameter. -/
def maybeInputDateWf (parseDate : String → Except String GoTime)
    (fn : GoTime → Option String) : EventFnM :=
  fun _id evt val =>
    if evt = "input" then
      if val ≠ "" then
        match parseDate val with
        | .error e => some e
        | .ok v => fn v
      else fn GoTime.zero
    else none

/-- `Request.maybeInputDate`. -/
def maybeInputDate (genIds : List String) (elems : List (String × Option EventFnM))
    (jid : String) (parseDate : String → Except String GoTime)
    (fn : Option (GoTime → Option String)) :
    Option (String × List (String × Option EventFnM)) :=
  registerEventFn genIds elems jid (fn.map (maybeInputDateWf parseDate))

/-! ## Claim C10 (empty input payload passes the zero value, unparsed) -/

/-- C10: for handlers registered through the typed input wrappers, an
`"input"` event with an empty payload invokes the user callback with the
zero value of the expected type (0, false, the zero time) and performs no
parsing: each equation holds for every parse function, so the result is
independent of parsing and an empty payload can never produce a parse
error; parsing is reached only for non-empty payloads. -/
theorem c10_empty_payload_zero_value :
    (∀ (parseFloat : String → Except String GoFloat) (fn : GoFloat → Option String)
        (id : String), maybeInputFloatWf parseFloat fn id "input" "" = fn 0) ∧
    (∀ (parseBool : String → Except String Bool) (fn : Bool → Option String)
        (id : String), maybeInputBoolWf parseBool fn id "input" "" = fn false) ∧
    (∀ (parseDate : String → Except String GoTime) (fn : GoTime → Option String)
        (id : String), maybeInputDateWf parseDate fn id "input" "" = fn GoTime.zero) := by
  refine ⟨?_, ?_, ?_⟩ <;> intro p f id <;> rfl

end Jaws
